import Mathlib

/-
Verification of fasterik/random.h (and its sibling random_float.h): a shallow
embedding of the C sources into Lean 4, followed by theorems settling the
spec claims.

Modelling conventions:
- `uint64_t` values are `Nat` with every operation that can overflow followed
  by an explicit `% 2^64` (addition, multiplication, left shift).  `^^^`, `|||`
  and `>>>` never increase a value beyond 64 bits, matching the C operators.
- `int` (32-bit signed) values are `Int`; arithmetic that can overflow is
  wrapped two's-complement style by `wrap32` (C leaves signed overflow
  undefined; the wraparound model matches the common machine behaviour, and
  is only relied on at inputs where the spec claims something).
- Floating point is modelled by exact arithmetic: the unit-interval samplers
  produce `ℚ` (their C values are exactly representable, see the comments
  there), and the gaussian samplers produce `ℝ` (real-arithmetic semantics of
  the C expression involving `log` and `sqrt`).
- The rejection loops (`random_range`, the gaussian samplers) are modelled
  with an explicit fuel parameter and an `Option` result; `none` means the
  loop did not exit within `fuel` iterations.
-/

namespace RandomH

/-- Truncated 64-bit addition, C `a + b` on `uint64_t`. -/
def add64 (a b : Nat) : Nat := (a + b) % 2 ^ 64

/-- Truncated 64-bit left shift, C `a << k` on `uint64_t`. -/
def shl64 (a k : Nat) : Nat := (a <<< k) % 2 ^ 64

/-- Two's-complement 64-bit negation, C unary `-a` on `uint64_t`. -/
def neg64 (a : Nat) : Nat := (2 ^ 64 - a % 2 ^ 64) % 2 ^ 64

/-- The generator state: `typedef struct { uint64_t s[4]; } RandomState;`
(random.h).  Field `si` is `s[i]`. -/
structure RandomState where
  s0 : Nat
  s1 : Nat
  s2 : Nat
  s3 : Nat
deriving DecidableEq, Repr

/-- The state of the sibling library: `typedef struct { uint64_t s[4]; } RFState;`
(random_float.h). -/
structure RFState where
  s0 : Nat
  s1 : Nat
  s2 : Nat
  s3 : Nat
deriving DecidableEq, Repr

/-- Function `random__split_mix_64` from random.h: one application of the SplitMix64
avalanche function. -/
def random__split_mix_64 (x : Nat) : Nat :=
  let x := (x + 0x9e3779b97f4a7c15) % 2 ^ 64
  let x := ((x ^^^ (x >>> 30)) * 0xbf58476d1ce4e5b9) % 2 ^ 64
  let x := ((x ^^^ (x >>> 27)) * 0x94d049bb133111eb) % 2 ^ 64
  x ^^^ (x >>> 31)

/-- Function `random_seed` from random.h: the four state words are the four successive
iterates of SplitMix64 on the seed. -/
def random_seed (seed : Nat) : RandomState :=
  let seed0 := random__split_mix_64 seed
  let seed1 := random__split_mix_64 seed0
  let seed2 := random__split_mix_64 seed1
  let seed3 := random__split_mix_64 seed2
  ⟨seed0, seed1, seed2, seed3⟩

/-- Function `random__rotl` from random.h: `(x << k) | (x >> (64 - k))` on `uint64_t`. -/
def random__rotl (x : Nat) (k : Nat) : Nat :=
  shl64 x k ||| (x >>> (64 - k))

/-- Function `random_u64` from random.h: the xoshiro256++ step.  Returns the output
word and the updated state; the sequential `let`s mirror the C assignments. -/
def random_u64 (state : RandomState) : Nat × RandomState :=
  let result := add64 (random__rotl (add64 state.s0 state.s3) 23) state.s0
  let t := shl64 state.s1 17
  let s2 := state.s2 ^^^ state.s0
  let s3 := state.s3 ^^^ state.s1
  let s1 := state.s1 ^^^ s2
  let s0 := state.s0 ^^^ s3
  let s2 := s2 ^^^ t
  let s3 := random__rotl s3 45
  (result, ⟨s0, s1, s2, s3⟩)

/-- The state-update part of `random_u64` (the output word discarded). -/
def xoshiroStep (state : RandomState) : RandomState := (random_u64 state).2

/-- Function `rf__next` from random_float.h: the xoshiro256+ step (output is the plain
sum `s[0] + s[3]`; the rotation of `s[3]` is written out inline in the C). -/
def rf__next (state : RFState) : Nat × RFState :=
  let result := add64 state.s0 state.s3
  let t := shl64 state.s1 17
  let s2 := state.s2 ^^^ state.s0
  let s3 := state.s3 ^^^ state.s1
  let s1 := state.s1 ^^^ s2
  let s0 := state.s0 ^^^ s3
  let s2 := s2 ^^^ t
  let s3 := shl64 s3 45 ||| (s3 >>> 19)
  (result, ⟨s0, s1, s2, s3⟩)

/-- The debiased-modulo loop of `random_range` from random.h, with fuel.
The C is a do-while: draw `x`, set `r = x % range`, exit unless
`x - r > -range` (all on `uint64_t`; `x - r` never wraps since `r ≤ x`). -/
def random_range_go (range : Nat) : Nat → RandomState → Option (Nat × RandomState)
  | 0, _ => none
  | fuel + 1, state =>
    let (x, state) := random_u64 state
    let r := x % range
    if x - r > neg64 range then random_range_go range fuel state
    else some (r, state)

/-- Function `random_range` from random.h (fuel-indexed; `none` = the rejection loop
did not exit within `fuel` draws). -/
def random_range (fuel : Nat) (state : RandomState) (range : Nat) :
    Option (Nat × RandomState) :=
  random_range_go range fuel state

/-- Two's-complement wraparound into the 32-bit signed range, used to model
C `int` arithmetic (signed overflow, undefined in C, is modelled as the
customary wraparound). -/
def wrap32 (z : Int) : Int := (z + 2 ^ 31) % 2 ^ 32 - 2 ^ 31

/-- C implicit conversion `int` → `uint64_t` (reduction mod 2^64). -/
def intToU64 (z : Int) : Nat := (z % 2 ^ 64).toNat

/-- Function `random_int` from random.h:
`lower + (int)random_range(state, upper - lower + 1)`, with the `int`
arithmetic and the `uint64_t → int` cast modelled two's-complement. -/
def random_int (fuel : Nat) (state : RandomState) (lower upper : Int) :
    Option (Int × RandomState) :=
  let span := wrap32 (upper - lower + 1)
  match random_range fuel state (intToU64 span) with
  | none => none
  | some (r, state) => some (wrap32 (lower + wrap32 (r : Int)), state)

/-- Function `random_float_01` from random.h: `0x1p-24f * (random_u64(state) >> 40)`.
The C value is exact: `w >> 40 < 2^24` is exactly representable in `float`
and the scaling by the power of two `2^-24` is exact, so the result is the
rational `(w >> 40) / 2^24`. -/
def random_float_01 (state : RandomState) : ℚ × RandomState :=
  let (w, state) := random_u64 state
  ((1 / 2 ^ 24 : ℚ) * ((w >>> 40 : Nat) : ℚ), state)

/-- Function `random_double_01` from random.h: `0x1p-53 * (random_u64(state) >> 11)`,
exact in `double` for the same reason. -/
def random_double_01 (state : RandomState) : ℚ × RandomState :=
  let (w, state) := random_u64 state
  ((1 / 2 ^ 53 : ℚ) * ((w >>> 11 : Nat) : ℚ), state)

/-- Function `rf_double_01` from random_float.h: `0x1p-53 * (rf__next(state) >> 11)`. -/
def rf_double_01 (state : RFState) : ℚ × RFState :=
  let (w, state) := rf__next state
  ((1 / 2 ^ 53 : ℚ) * ((w >>> 11 : Nat) : ℚ), state)

/-- The shared shape of the three gaussian rejection loops (the C repeats the
same do-while verbatim in `random_float_gaussian`, `random_double_gaussian`
and `rf_double_gaussian`, differing only in the unit-interval draw used):
draw `x`, map `u := x * 2 - 1`, set `s := u * u`, redo while `s >= 1 || s == 0`,
and on exit return `mu + sigma * (u * sqrt(-0.5 * log(s) / s))`.
`u` and `s` are exact rationals (see `random_float_01`); the returned value
is the real-arithmetic reading of the C expression. -/
noncomputable def gauss_go {σ : Type} (draw : σ → ℚ × σ) (mu sigma : ℝ) :
    Nat → σ → Option (ℝ × σ)
  | 0, _ => none
  | fuel + 1, state =>
    let x : ℚ := (draw state).1
    let state' : σ := (draw state).2
    let u : ℚ := x * 2 - 1
    let s : ℚ := u * u
    if 1 ≤ s ∨ s = 0 then gauss_go draw mu sigma fuel state'
    else some (mu + sigma * ((u : ℝ) * Real.sqrt (-(1/2) * Real.log (s : ℝ) / (s : ℝ))), state')

/-- Function `random_float_gaussian` from random.h (fuel-indexed rejection loop). -/
noncomputable def random_float_gaussian (fuel : Nat) (state : RandomState)
    (mu sigma : ℝ) : Option (ℝ × RandomState) :=
  gauss_go random_float_01 mu sigma fuel state

/-- Function `random_double_gaussian` from random.h (fuel-indexed rejection loop). -/
noncomputable def random_double_gaussian (fuel : Nat) (state : RandomState)
    (mu sigma : ℝ) : Option (ℝ × RandomState) :=
  gauss_go random_double_01 mu sigma fuel state

/-- Function `rf_double_gaussian` from random_float.h (fuel-indexed rejection loop). -/
noncomputable def rf_double_gaussian (fuel : Nat) (state : RFState)
    (mu sigma : ℝ) : Option (ℝ × RFState) :=
  gauss_go rf_double_01 mu sigma fuel state

/-- Running `fuel` calls to `random_u64`: the list of output words in order, and the
final state. -/
def random_run : Nat → RandomState → List Nat × RandomState
  | 0, state => ([], state)
  | n + 1, state =>
    let (x, state) := random_u64 state
    let (xs, state') := random_run n state
    (x :: xs, state')

/-- Inverse of the 64-bit map `y = x ^ (x << 17)` (the only non-involutive
piece of the xoshiro state update): since shifting by 17 four times leaves
64 bits, `x = y ^ (y << 17) ^ (y << 34) ^ (y << 51)`. -/
def unshift17 (y : Nat) : Nat := y ^^^ shl64 y 17 ^^^ shl64 y 34 ^^^ shl64 y 51

/-- Explicit inverse of the xoshiro256 state update `xoshiroStep` (derived by
reading the update's equations backwards; proved to be a two-sided inverse on
64-bit states below). -/
def xoshiroStepInv (a : RandomState) : RandomState :=
  let b3 := random__rotl a.s3 19
  let s0 := a.s0 ^^^ b3
  let c := a.s1 ^^^ s0
  let d := a.s2 ^^^ s0
  let s1 := unshift17 (c ^^^ d)
  let s2 := s1 ^^^ c
  let s3 := b3 ^^^ s1
  ⟨s0, s1, s2, s3⟩

/-- A 64-bit machine word, as a bounded natural. -/
abbrev W64 := Fin (2 ^ 64)

/-- The generator state as a tuple of genuine 64-bit words (the C type
`uint64_t s[4]` carries this bound intrinsically). -/
abbrev VState := W64 × W64 × W64 × W64

/-- Forget the bounds. -/
def toRS (v : VState) : RandomState := ⟨v.1.1, v.2.1.1, v.2.2.1.1, v.2.2.2.1⟩

/-- Reduce a natural into a 64-bit word. -/
def mkW (x : Nat) : W64 := ⟨x % 2 ^ 64, Nat.mod_lt x (by norm_num)⟩

/-- The xoshiro256 state update on bounded 64-bit states. -/
def stepV (v : VState) : VState :=
  (mkW (xoshiroStep (toRS v)).s0, mkW (xoshiroStep (toRS v)).s1,
   mkW (xoshiroStep (toRS v)).s2, mkW (xoshiroStep (toRS v)).s3)

/-- The inverse state update on bounded 64-bit states. -/
def stepInvV (v : VState) : VState :=
  (mkW (xoshiroStepInv (toRS v)).s0, mkW (xoshiroStepInv (toRS v)).s1,
   mkW (xoshiroStepInv (toRS v)).s2, mkW (xoshiroStepInv (toRS v)).s3)

/-- The bounded state `(1, 0, 0, 0)` (a sample non-zero state). -/
def vOne : VState := (mkW 1, mkW 0, mkW 0, mkW 0)

end RandomH

namespace RandomH

/-- Claim C1. For every state `(s0,s1,s2,s3)`, one call to `random_u64` returns
`rotl64(s0 + s3, 23) + s0` (addition modulo 2^64) and updates the state
exactly by `s2 ^= s0; s3 ^= s1; s1 ^= s2 (updated); s0 ^= s3 (updated);
s2 ^= (original s1) << 17; s3 = rotl64(s3 (updated), 45)` — written out below
with the sequential references resolved. -/
theorem c1_random_u64_step (s0 s1 s2 s3 : Nat) :
    random_u64 ⟨s0, s1, s2, s3⟩ =
      (add64 (random__rotl (add64 s0 s3) 23) s0,
       ⟨s0 ^^^ (s3 ^^^ s1),
        s1 ^^^ (s2 ^^^ s0),
        (s2 ^^^ s0) ^^^ shl64 s1 17,
        random__rotl (s3 ^^^ s1) 45⟩) := rfl

/-- Claim C2. For every seed, `random_seed` sets state word `i` to the
`(i+1)`-st iterate of the SplitMix64 avalanche function on the seed. -/
theorem c2_random_seed_splitmix (seed : Nat) :
    random_seed seed =
      ⟨random__split_mix_64^[1] seed,
       random__split_mix_64^[2] seed,
       random__split_mix_64^[3] seed,
       random__split_mix_64^[4] seed⟩ := rfl

/-- The output word of `random_u64` is a 64-bit value (it is reduced mod 2^64
by the final addition). -/
theorem random_u64_fst_lt (st : RandomState) : (random_u64 st).1 < 2 ^ 64 :=
  Nat.mod_lt _ (by norm_num)

/-- The output word of `rf__next` is a 64-bit value. -/
theorem rf__next_fst_lt (st : RFState) : (rf__next st).1 < 2 ^ 64 :=
  Nat.mod_lt _ (by norm_num)

/-- A 64-bit word shifted right by `k` is below `2 ^ (64 - k)`. -/
theorem shiftRight_lt_of_lt (w k c : Nat) (hw : w < 2 ^ (k + c)) : w >>> k < 2 ^ c := by
  rw [Nat.shiftRight_eq_div_pow]
  apply Nat.div_lt_of_lt_mul
  rw [← Nat.pow_add]
  exact hw

/-- Scaling a natural below `2 ^ c` by `2 ^ (-c)` lands in `[0, 1)`. -/
theorem unit_scale_mem {n c : Nat} (h : n < 2 ^ c) :
    0 ≤ (1 / 2 ^ c : ℚ) * (n : ℚ) ∧ (1 / 2 ^ c : ℚ) * (n : ℚ) < 1 := by
  constructor
  · positivity
  · rw [one_div_mul_eq_div, div_lt_one (by positivity)]
    exact_mod_cast h

/-- Claim C6. Each unit-interval sampler returns exactly the drawn word's top
bits scaled by the matching power of two (`(w >> 40) * 2^-24` for `float`,
`(w >> 11) * 2^-53` for `double`), the value always lies in `[0, 1)`
(so 1 is never returned), and 0 is attained (e.g. from the all-zero state). -/
theorem c6_unit_interval :
    (∀ st : RandomState,
        random_float_01 st =
          ((1 / 2 ^ 24 : ℚ) * (((random_u64 st).1 >>> 40 : Nat) : ℚ), (random_u64 st).2) ∧
        0 ≤ (random_float_01 st).1 ∧ (random_float_01 st).1 < 1) ∧
    (∀ st : RandomState,
        random_double_01 st =
          ((1 / 2 ^ 53 : ℚ) * (((random_u64 st).1 >>> 11 : Nat) : ℚ), (random_u64 st).2) ∧
        0 ≤ (random_double_01 st).1 ∧ (random_double_01 st).1 < 1) ∧
    (∀ st : RFState,
        rf_double_01 st =
          ((1 / 2 ^ 53 : ℚ) * (((rf__next st).1 >>> 11 : Nat) : ℚ), (rf__next st).2) ∧
        0 ≤ (rf_double_01 st).1 ∧ (rf_double_01 st).1 < 1) ∧
    (random_float_01 ⟨0, 0, 0, 0⟩).1 = 0 ∧ (random_double_01 ⟨0, 0, 0, 0⟩).1 = 0 := by
  refine ⟨fun st => ⟨rfl, ?_⟩, fun st => ⟨rfl, ?_⟩, fun st => ⟨rfl, ?_⟩, ?_, ?_⟩
  · exact unit_scale_mem (shiftRight_lt_of_lt _ 40 24 (random_u64_fst_lt st))
  · exact unit_scale_mem (shiftRight_lt_of_lt _ 11 53 (random_u64_fst_lt st))
  · exact unit_scale_mem (shiftRight_lt_of_lt _ 11 53 (rf__next_fst_lt st))
  · norm_num [random_float_01, random_u64, add64, shl64, random__rotl]
  · norm_num [random_double_01, random_u64, add64, shl64, random__rotl]

/-- Claim C8. The all-zero state is a fixed point of the generator with output
word 0: one call returns 0 and leaves the state all-zero, and every iterate
of the state update stays all-zero with output word 0. -/
theorem c8_zero_state_degenerate :
    random_u64 ⟨0, 0, 0, 0⟩ = (0, ⟨0, 0, 0, 0⟩) ∧
    ∀ k : Nat, xoshiroStep^[k] ⟨0, 0, 0, 0⟩ = ⟨0, 0, 0, 0⟩ ∧
      (random_u64 (xoshiroStep^[k] ⟨0, 0, 0, 0⟩)).1 = 0 := by
  have base : random_u64 ⟨0, 0, 0, 0⟩ = (0, ⟨0, 0, 0, 0⟩) := by
    norm_num [random_u64, add64, shl64, random__rotl]
  refine ⟨base, fun k => ?_⟩
  induction k with
  | zero => exact ⟨rfl, by rw [Function.iterate_zero_apply, base]⟩
  | succ n ih =>
    have hstep : xoshiroStep^[n + 1] ⟨0, 0, 0, 0⟩ = ⟨0, 0, 0, 0⟩ := by
      rw [Function.iterate_succ_apply', ih.1, xoshiroStep, base]
    exact ⟨hstep, by rw [hstep, base]⟩

/-- Claim C9. Determinism: two runs from states produced by `random_seed` with
the same seed yield identical output-word sequences and identical final
states, for any number of calls. -/
theorem c9_deterministic (seed n : Nat) (s1 s2 : RandomState)
    (h1 : s1 = random_seed seed) (h2 : s2 = random_seed seed) :
    random_run n s1 = random_run n s2 := by
  subst h1; subst h2; rfl

/-- Witness for C9 at seed 0 with three calls. -/
theorem c9_deterministic_witness :
    random_run 3 (random_seed 0) = random_run 3 (random_seed 0) :=
  c9_deterministic 0 3 (random_seed 0) (random_seed 0) rfl rfl

/-- One unfolding of the rejection loop of `random_range`. -/
theorem random_range_go_succ (range fuel : Nat) (st : RandomState) :
    random_range_go range (fuel + 1) st =
      if (random_u64 st).1 - (random_u64 st).1 % range > neg64 range
      then random_range_go range fuel (random_u64 st).2
      else some ((random_u64 st).1 % range, (random_u64 st).2) := rfl

/-- Whenever the debiased-modulo loop of `random_range` exits, the value it
returns is `x % range` for the accepted draw, hence strictly below `range`
(for `range > 0`). -/
theorem random_range_go_lt {range : Nat} (hr : 0 < range) :
    ∀ (fuel : Nat) (st : RandomState) (r : Nat) (st' : RandomState),
      random_range_go range fuel st = some (r, st') → r < range := by
  intro fuel
  induction fuel with
  | zero => intro st r st' h; exact absurd h (by simp [random_range_go])
  | succ n ih =>
    intro st r st' h
    rw [random_range_go_succ] at h
    split at h
    · exact ih _ _ _ h
    · obtain ⟨h1, -⟩ := Prod.mk.injEq .. ▸ Option.some.inj h
      exact h1 ▸ Nat.mod_lt _ hr

/-- With `range = 1` every draw is accepted at once: the remainder is 0 and
the rejection test `x - r > -1` can never hold for a 64-bit `x`. -/
theorem random_range_go_one (fuel : Nat) (st : RandomState) :
    random_range_go 1 (fuel + 1) st = some (0, (random_u64 st).2) := by
  rw [random_range_go_succ]
  have hx := random_u64_fst_lt st
  rw [if_neg (by simp only [Nat.mod_one]; unfold neg64; omega)]
  simp [Nat.mod_one]

/-- Lemma: `wrap32` is the identity on the 32-bit signed range. -/
theorem wrap32_eq_self {z : Int} (h1 : -2 ^ 31 ≤ z) (h2 : z < 2 ^ 31) :
    wrap32 z = z := by
  unfold wrap32; omega

/-- Claim C4, amended. For every signed-int pair with `upper ≥ lower` whose
span `upper - lower + 1` still fits in `int` (the amendment: without it the
span computation overflows and the result can leave the interval, see the
counterexample), every value `random_int` returns lies in `[lower, upper]`;
and when `lower = upper` the very first draw is accepted and the call returns
`lower`. -/
theorem c4_random_int_in_range (lower upper : Int)
    (hlo : -2 ^ 31 ≤ lower) (hhi : upper < 2 ^ 31) (hle : lower ≤ upper)
    (hspan : upper - lower + 1 < 2 ^ 31) :
    (∀ (fuel : Nat) (st : RandomState) (v : Int) (st' : RandomState),
        random_int fuel st lower upper = some (v, st') → lower ≤ v ∧ v ≤ upper) ∧
    (lower = upper → ∀ (fuel : Nat) (st : RandomState),
        random_int (fuel + 1) st lower upper = some (lower, (random_u64 st).2)) := by
  have hsp_id : wrap32 (upper - lower + 1) = upper - lower + 1 :=
    wrap32_eq_self (by omega) (by omega)
  have hn_id : intToU64 (upper - lower + 1) = (upper - lower + 1).toNat := by
    unfold intToU64
    rw [Int.emod_eq_of_lt (by omega) (by norm_num; omega)]
  have hnpos : 0 < (upper - lower + 1).toNat := by omega
  constructor
  · intro fuel st v st' h
    rw [random_int] at h
    rw [hsp_id, hn_id] at h
    rcases hrr : random_range fuel st (upper - lower + 1).toNat with - | ⟨r, st2⟩
    · rw [hrr] at h; exact absurd h (by simp)
    · rw [hrr] at h
      have hrlt : r < (upper - lower + 1).toNat :=
        random_range_go_lt hnpos fuel st r st2 hrr
      obtain ⟨hv, -⟩ := Prod.mk.injEq .. ▸ Option.some.inj h
      have hr32 : wrap32 (r : Int) = (r : Int) :=
        wrap32_eq_self (by omega) (by omega)
      have hsum : wrap32 (lower + (r : Int)) = lower + (r : Int) :=
        wrap32_eq_self (by omega) (by omega)
      rw [hr32, hsum] at hv
      omega
  · intro hequ fuel st
    subst hequ
    rw [random_int]
    have h1 : wrap32 (lower - lower + 1) = 1 := by rw [show lower - lower + 1 = 1 by ring]; decide
    rw [h1, show intToU64 1 = 1 from rfl, random_range, random_range_go_one]
    have h0 : wrap32 (lower + wrap32 0) = lower := by
      rw [show wrap32 0 = 0 from rfl, add_zero]
      exact wrap32_eq_self hlo (by omega)
    show some (wrap32 (lower + wrap32 ((0 : Nat) : Int)), (random_u64 st).2) =
      some (lower, (random_u64 st).2)
    rw [Nat.cast_zero, h0]

/-- Counterexample to C4 as stated: for `lower = 0`, `upper = 2^31 - 1`
(a signed-int pair with `upper ≥ lower`), the span `upper - lower + 1`
overflows `int` to `-2^31`, is converted to the huge unsigned `2^64 - 2^31`,
and from state `(0,0,0,256)` the first draw `2^31` is accepted, so the cast
back to `int` yields `-2^31`, far outside `[lower, upper]`. -/
theorem c4_counterexample :
    random_int 1 ⟨0, 0, 0, 256⟩ 0 (2 ^ 31 - 1) =
      some (-(2 ^ 31), ⟨256, 0, 0, 2 ^ 53⟩) ∧
    ¬(0 ≤ (-(2 ^ 31) : Int)) := by
  constructor
  · decide
  · decide

/-- Witness for C4 (amended): drawing on `[5, 7]` from state `(1,0,0,0)`
returns 5, which the theorem places inside the interval. -/
theorem c4_random_int_witness :
    random_int 1 ⟨1, 0, 0, 0⟩ 5 7 = some (5, ⟨1, 1, 1, 0⟩) ∧
    (5 : Int) ≤ 5 ∧ (5 : Int) ≤ 7 := by
  have h := (c4_random_int_in_range 5 7 (by norm_num) (by norm_num) (by norm_num)
    (by norm_num)).1 1 ⟨1, 0, 0, 0⟩ 5 ⟨1, 1, 1, 0⟩ (by decide)
  exact ⟨by decide, h.1, h.2⟩

/-- The truncated shift stays below 2^64. -/
theorem shl64_lt (a k : Nat) : shl64 a k < 2 ^ 64 := Nat.mod_lt _ (by norm_num)

/-- Rotation of a 64-bit word is a 64-bit word. -/
theorem rotl_lt (x k : Nat) (hx : x < 2 ^ 64) : random__rotl x k < 2 ^ 64 :=
  Nat.or_lt_two_pow (shl64_lt x k)
    (lt_of_le_of_lt (by rw [Nat.shiftRight_eq_div_pow]; exact Nat.div_le_self x _) hx)

/-- The truncated shift distributes over xor. -/
theorem shl64_xor (a b k : Nat) : shl64 (a ^^^ b) k = shl64 a k ^^^ shl64 b k := by
  apply Nat.eq_of_testBit_eq
  intro i
  simp only [shl64, Nat.testBit_mod_two_pow, Nat.testBit_shiftLeft, Nat.testBit_xor,
    Bool.and_xor_distrib_left]

/-- Composing truncated shifts adds the shift amounts. -/
theorem shl64_shl64 (x j k : Nat) : shl64 (shl64 x j) k = shl64 x (j + k) := by
  unfold shl64
  rw [Nat.shiftLeft_eq, Nat.shiftLeft_eq, Nat.shiftLeft_eq, Nat.mod_mul_mod,
    mul_assoc, ← pow_add]

/-- Shifting 64 or more bits truncates to zero. -/
theorem shl64_ge64 (x k : Nat) (h : 64 ≤ k) : shl64 x k = 0 := by
  unfold shl64
  rw [Nat.shiftLeft_eq, show k = (k - 64) + 64 by omega, pow_add, ← mul_assoc,
    Nat.mul_mod_left]

/-- Four-term xor telescope. -/
theorem xor_telescope (x a b c : Nat) :
    x ^^^ a ^^^ (a ^^^ b) ^^^ (b ^^^ c) ^^^ c = x := by
  apply Nat.eq_of_testBit_eq
  intro i
  simp only [Nat.testBit_xor]
  generalize x.testBit i = p
  generalize a.testBit i = q
  generalize b.testBit i = r
  generalize c.testBit i = s
  revert p q r s
  decide

/-- Lemma: `unshift17` undoes `x ^ (x << 17)`, with no bound needed on `x`. -/
theorem unshift17_shl17 (x : Nat) : unshift17 (x ^^^ shl64 x 17) = x := by
  unfold unshift17
  rw [shl64_xor, shl64_xor, shl64_xor, shl64_shl64, shl64_shl64, shl64_shl64]
  norm_num
  rw [shl64_ge64 x 68 (by norm_num)]
  rw [Nat.xor_zero]
  exact xor_telescope x (shl64 x 17) (shl64 x 34) (shl64 x 51)

/-- Lemma: `unshift17` maps 64-bit words to 64-bit words. -/
theorem unshift17_lt {y : Nat} (hy : y < 2 ^ 64) : unshift17 y < 2 ^ 64 :=
  Nat.xor_lt_two_pow
    (Nat.xor_lt_two_pow (Nat.xor_lt_two_pow hy (shl64_lt y 17)) (shl64_lt y 34))
    (shl64_lt y 51)

/-- Bit `i < 64` of a rotation of a 64-bit word is bit `(i + 64 - k) % 64`. -/
theorem testBit_rotl {x : Nat} (hx : x < 2 ^ 64) (k i : Nat) (hk : k ≤ 64)
    (hi : i < 64) :
    (random__rotl x k).testBit i = x.testBit ((i + 64 - k) % 64) := by
  unfold random__rotl shl64
  simp only [Nat.testBit_or, Nat.testBit_mod_two_pow, Nat.testBit_shiftLeft,
    Nat.testBit_shiftRight]
  rcases Nat.lt_or_ge i k with hik | hik
  · rw [decide_eq_false (by omega : ¬ i ≥ k), decide_eq_true hi]
    simp only [Bool.false_and, Bool.and_false, Bool.true_and, Bool.false_or]
    congr 1
    omega
  · have hfalse : x.testBit (64 - k + i) = false :=
      Nat.testBit_lt_two_pow
        (lt_of_lt_of_le hx (Nat.pow_le_pow_right (by norm_num) (by omega)))
    rw [decide_eq_true (by omega : i ≥ k), decide_eq_true hi, hfalse]
    simp only [Bool.true_and, Bool.or_false]
    congr 1
    omega

/-- Rotating left by 45 and then by 19 restores a 64-bit word. -/
theorem rotl_rotl_cancel {x : Nat} (hx : x < 2 ^ 64) :
    random__rotl (random__rotl x 45) 19 = x := by
  apply Nat.eq_of_testBit_eq
  intro i
  rcases Nat.lt_or_ge i 64 with hi | hi
  · rw [testBit_rotl (rotl_lt x 45 hx) 19 i (by norm_num) hi,
      testBit_rotl hx 45 _ (by norm_num) (Nat.mod_lt _ (by norm_num))]
    congr 1
    omega
  · rw [Nat.testBit_lt_two_pow
        (lt_of_lt_of_le (rotl_lt _ 19 (rotl_lt x 45 hx))
          (Nat.pow_le_pow_right (by norm_num) hi)),
      Nat.testBit_lt_two_pow
        (lt_of_lt_of_le hx (Nat.pow_le_pow_right (by norm_num) hi))]

/-- Xor shuffle: `p ^ (q ^ r) ^ r = p ^ q`. -/
theorem xor_shuffle1 (p q r : Nat) : p ^^^ (q ^^^ r) ^^^ r = p ^^^ q := by
  apply Nat.eq_of_testBit_eq
  intro i
  simp only [Nat.testBit_xor]
  generalize p.testBit i = a
  generalize q.testBit i = b
  generalize r.testBit i = c
  revert a b c
  decide

/-- Xor shuffle: `((p ^ q) ^ t) ^ q = p ^ t`. -/
theorem xor_shuffle2 (p q t : Nat) : p ^^^ q ^^^ t ^^^ q = p ^^^ t := by
  apply Nat.eq_of_testBit_eq
  intro i
  simp only [Nat.testBit_xor]
  generalize p.testBit i = a
  generalize q.testBit i = b
  generalize t.testBit i = c
  revert a b c
  decide

/-- Xor shuffle: `(p ^ q) ^ (q ^ t) = p ^ t`. -/
theorem xor_shuffle3 (p q t : Nat) : (p ^^^ q) ^^^ (q ^^^ t) = p ^^^ t := by
  apply Nat.eq_of_testBit_eq
  intro i
  simp only [Nat.testBit_xor]
  generalize p.testBit i = a
  generalize q.testBit i = b
  generalize t.testBit i = c
  revert a b c
  decide

/-- The state update written out on the four words. -/
theorem xoshiroStep_eq (s0 s1 s2 s3 : Nat) :
    xoshiroStep ⟨s0, s1, s2, s3⟩ =
      ⟨s0 ^^^ (s3 ^^^ s1), s1 ^^^ (s2 ^^^ s0), (s2 ^^^ s0) ^^^ shl64 s1 17,
       random__rotl (s3 ^^^ s1) 45⟩ := rfl

/-- Lemma: `xoshiroStepInv` is a left inverse of the state update on 64-bit states
(only the bounds of words 1 and 3 matter, via the rotation). -/
theorem xoshiroStepInv_xoshiroStep {s0 s1 s2 s3 : Nat}
    (h1 : s1 < 2 ^ 64) (h3 : s3 < 2 ^ 64) :
    xoshiroStepInv (xoshiroStep ⟨s0, s1, s2, s3⟩) = ⟨s0, s1, s2, s3⟩ := by
  rw [xoshiroStep_eq]
  show RandomState.mk _ _ _ _ = _
  have hb3 : random__rotl (random__rotl (s3 ^^^ s1) 45) 19 = s3 ^^^ s1 :=
    rotl_rotl_cancel (Nat.xor_lt_two_pow h3 h1)
  simp only [xoshiroStepInv, hb3, Nat.xor_cancel_right, xor_shuffle1, xor_shuffle2,
    xor_shuffle3, unshift17_shl17, Nat.xor_cancel_left]

/-- The four words of the state update stay below 2^64. -/
theorem xoshiroStep_bounds {s0 s1 s2 s3 : Nat} (h0 : s0 < 2 ^ 64)
    (h1 : s1 < 2 ^ 64) (h2 : s2 < 2 ^ 64) (h3 : s3 < 2 ^ 64) :
    (xoshiroStep ⟨s0, s1, s2, s3⟩).s0 < 2 ^ 64 ∧
    (xoshiroStep ⟨s0, s1, s2, s3⟩).s1 < 2 ^ 64 ∧
    (xoshiroStep ⟨s0, s1, s2, s3⟩).s2 < 2 ^ 64 ∧
    (xoshiroStep ⟨s0, s1, s2, s3⟩).s3 < 2 ^ 64 := by
  rw [xoshiroStep_eq]
  exact ⟨Nat.xor_lt_two_pow h0 (Nat.xor_lt_two_pow h3 h1),
    Nat.xor_lt_two_pow h1 (Nat.xor_lt_two_pow h2 h0),
    Nat.xor_lt_two_pow (Nat.xor_lt_two_pow h2 h0) (shl64_lt s1 17),
    rotl_lt _ 45 (Nat.xor_lt_two_pow h3 h1)⟩

/-- The four words of the inverse update stay below 2^64. -/
theorem xoshiroStepInv_bounds {s0 s1 s2 s3 : Nat} (h0 : s0 < 2 ^ 64)
    (h1 : s1 < 2 ^ 64) (h2 : s2 < 2 ^ 64) (h3 : s3 < 2 ^ 64) :
    (xoshiroStepInv ⟨s0, s1, s2, s3⟩).s0 < 2 ^ 64 ∧
    (xoshiroStepInv ⟨s0, s1, s2, s3⟩).s1 < 2 ^ 64 ∧
    (xoshiroStepInv ⟨s0, s1, s2, s3⟩).s2 < 2 ^ 64 ∧
    (xoshiroStepInv ⟨s0, s1, s2, s3⟩).s3 < 2 ^ 64 := by
  have hb3 : random__rotl s3 19 < 2 ^ 64 := rotl_lt _ 19 h3
  have hs0 : s0 ^^^ random__rotl s3 19 < 2 ^ 64 := Nat.xor_lt_two_pow h0 hb3
  have hc : s1 ^^^ (s0 ^^^ random__rotl s3 19) < 2 ^ 64 := Nat.xor_lt_two_pow h1 hs0
  have hd : s2 ^^^ (s0 ^^^ random__rotl s3 19) < 2 ^ 64 := Nat.xor_lt_two_pow h2 hs0
  have hu : unshift17 ((s1 ^^^ (s0 ^^^ random__rotl s3 19)) ^^^
      (s2 ^^^ (s0 ^^^ random__rotl s3 19))) < 2 ^ 64 :=
    unshift17_lt (Nat.xor_lt_two_pow hc hd)
  exact ⟨hs0, hu, Nat.xor_lt_two_pow hu hc, Nat.xor_lt_two_pow hb3 hu⟩

/-- Projecting with `toRS` after `stepV` is the plain state update. -/
theorem toRS_stepV (v : VState) : toRS (stepV v) = xoshiroStep (toRS v) := by
  obtain ⟨a, b, c, d⟩ := v
  obtain ⟨h0, h1, h2, h3⟩ := xoshiroStep_bounds a.isLt b.isLt c.isLt d.isLt
  simp only [stepV, toRS, mkW]
  rw [Nat.mod_eq_of_lt h0, Nat.mod_eq_of_lt h1, Nat.mod_eq_of_lt h2,
    Nat.mod_eq_of_lt h3]

/-- Projecting with `toRS` after `stepInvV` is the plain inverse update. -/
theorem toRS_stepInvV (v : VState) : toRS (stepInvV v) = xoshiroStepInv (toRS v) := by
  obtain ⟨a, b, c, d⟩ := v
  obtain ⟨h0, h1, h2, h3⟩ := xoshiroStepInv_bounds a.isLt b.isLt c.isLt d.isLt
  simp only [stepInvV, toRS, mkW]
  rw [Nat.mod_eq_of_lt h0, Nat.mod_eq_of_lt h1, Nat.mod_eq_of_lt h2,
    Nat.mod_eq_of_lt h3]

/-- Injectivity of `toRS`. -/
theorem toRS_inj {v w : VState} (h : toRS v = toRS w) : v = w := by
  obtain ⟨⟨a, ha⟩, ⟨b, hb⟩, ⟨c, hc⟩, ⟨d, hd⟩⟩ := v
  obtain ⟨⟨a', ha'⟩, ⟨b', hb'⟩, ⟨c', hc'⟩, ⟨d', hd'⟩⟩ := w
  simp only [toRS, RandomState.mk.injEq] at h
  obtain ⟨e0, e1, e2, e3⟩ := h
  subst e0; subst e1; subst e2; subst e3
  rfl

/-- Lemma: `stepInvV` is a left inverse of `stepV`. -/
theorem stepInvV_leftInverse : Function.LeftInverse stepInvV stepV := by
  intro v
  apply toRS_inj
  rw [toRS_stepInvV, toRS_stepV]
  obtain ⟨a, b, c, d⟩ := v
  exact xoshiroStepInv_xoshiroStep b.isLt d.isLt

/-- Claim C10. The state-update transformation of `random_u64` is identical to
the one performed by `rf__next` (word for word), the bounded-state update
`stepV` (which is that transformation, conjunct two) is a bijection on
4-word states, and a non-all-zero state never steps to the all-zero state. -/
theorem c10_step_bijection :
    (∀ a b c d : Nat,
      (rf__next ⟨a, b, c, d⟩).2.s0 = (random_u64 ⟨a, b, c, d⟩).2.s0 ∧
      (rf__next ⟨a, b, c, d⟩).2.s1 = (random_u64 ⟨a, b, c, d⟩).2.s1 ∧
      (rf__next ⟨a, b, c, d⟩).2.s2 = (random_u64 ⟨a, b, c, d⟩).2.s2 ∧
      (rf__next ⟨a, b, c, d⟩).2.s3 = (random_u64 ⟨a, b, c, d⟩).2.s3) ∧
    (∀ v : VState, toRS (stepV v) = xoshiroStep (toRS v)) ∧
    Function.Bijective stepV ∧
    (∀ v : VState, toRS v ≠ ⟨0, 0, 0, 0⟩ → toRS (stepV v) ≠ ⟨0, 0, 0, 0⟩) := by
  have hinj : Function.Injective stepV := stepInvV_leftInverse.injective
  refine ⟨fun a b c d => ⟨rfl, rfl, rfl, rfl⟩, toRS_stepV, Finite.injective_iff_bijective.mp hinj, ?_⟩
  intro v hv hcontra
  have hz : stepV (mkW 0, mkW 0, mkW 0, mkW 0) = (mkW 0, mkW 0, mkW 0, mkW 0) := by decide
  have hv0 : toRS (mkW 0, mkW 0, mkW 0, mkW 0) = (⟨0, 0, 0, 0⟩ : RandomState) := by decide
  have : stepV v = stepV (mkW 0, mkW 0, mkW 0, mkW 0) := by
    rw [hz]
    exact toRS_inj (hcontra.trans hv0.symm)
  exact hv ((hinj this).symm ▸ hv0)

/-- Witness for C10 at the non-zero state `(1,0,0,0)`: its successor state is
non-zero. -/
theorem c10_step_bijection_witness :
    toRS vOne ≠ ⟨0, 0, 0, 0⟩ ∧ toRS (stepV vOne) ≠ ⟨0, 0, 0, 0⟩ :=
  ⟨by decide, c10_step_bijection.2.2.2 vOne (by decide)⟩

/-- Any value the gaussian rejection loop returns comes from an accepted draw:
there are `u` and `s = u * u` with the rejection test `s >= 1 || s == 0`
failing, `u = x * 2 - 1` for a unit draw `x`, and the returned value is
`mu + sigma * (u * sqrt(-0.5 * log(s) / s))`. -/
theorem gauss_go_spec {σ : Type} (draw : σ → ℚ × σ) (mu sigma : ℝ) :
    ∀ (fuel : Nat) (st : σ) (v : ℝ) (st' : σ),
      gauss_go draw mu sigma fuel st = some (v, st') →
      ∃ u s : ℚ, ¬(1 ≤ s ∨ s = 0) ∧ s = u * u ∧
        (∃ st0 : σ, u = (draw st0).1 * 2 - 1) ∧
        v = mu + sigma * ((u : ℝ) * Real.sqrt (-(1/2) * Real.log (s : ℝ) / (s : ℝ))) := by
  intro fuel
  induction fuel with
  | zero => intro st v st' h; exact absurd h (by simp [gauss_go])
  | succ n ih =>
    intro st v st' h
    simp only [gauss_go] at h
    by_cases hcond : 1 ≤ ((draw st).1 * 2 - 1) * ((draw st).1 * 2 - 1) ∨
        ((draw st).1 * 2 - 1) * ((draw st).1 * 2 - 1) = 0
    · rw [if_pos hcond] at h
      exact ih (draw st).2 v st' h
    · rw [if_neg hcond] at h
      obtain ⟨hv, -⟩ := Prod.mk.injEq .. ▸ Option.some.inj h
      exact ⟨(draw st).1 * 2 - 1, ((draw st).1 * 2 - 1) * ((draw st).1 * 2 - 1),
        hcond, rfl, ⟨st, rfl⟩, hv.symm⟩

/-- With `sigma = 0` any value the loop returns is exactly `mu`. -/
theorem gauss_go_sigma_zero {σ : Type} (draw : σ → ℚ × σ) (mu : ℝ)
    (fuel : Nat) (st : σ) (v : ℝ) (st' : σ)
    (h : gauss_go draw mu 0 fuel st = some (v, st')) : v = mu := by
  obtain ⟨u, s, -, -, -, hv⟩ := gauss_go_spec draw mu 0 fuel st v st' h
  rw [hv, zero_mul, add_zero]

/-- Claim C5, amended. In all three gaussian samplers, each rejection-loop
iteration draws one unit-interval sample `x`, maps it to `u = 2x - 1`, sets
`s = u * u`, rejects while `s >= 1` or `s == 0`, and on acceptance the
function returns `mu + sigma * (u * sqrt(-0.5 * ln(s) / s))` — the constant
inside the square root is `-0.5`, not the `-2` the claim states (the returned
deviate is half the claimed one; see the counterexample). -/
theorem c5_gaussian_formula :
    (∀ (fuel : Nat) (st : RandomState) (mu sigma v : ℝ) (st' : RandomState),
        random_float_gaussian fuel st mu sigma = some (v, st') →
        ∃ u s : ℚ, ¬(1 ≤ s ∨ s = 0) ∧ s = u * u ∧
          (∃ st0 : RandomState, u = (random_float_01 st0).1 * 2 - 1) ∧
          v = mu + sigma * ((u : ℝ) * Real.sqrt (-(1/2) * Real.log (s : ℝ) / (s : ℝ)))) ∧
    (∀ (fuel : Nat) (st : RandomState) (mu sigma v : ℝ) (st' : RandomState),
        random_double_gaussian fuel st mu sigma = some (v, st') →
        ∃ u s : ℚ, ¬(1 ≤ s ∨ s = 0) ∧ s = u * u ∧
          (∃ st0 : RandomState, u = (random_double_01 st0).1 * 2 - 1) ∧
          v = mu + sigma * ((u : ℝ) * Real.sqrt (-(1/2) * Real.log (s : ℝ) / (s : ℝ)))) ∧
    (∀ (fuel : Nat) (st : RFState) (mu sigma v : ℝ) (st' : RFState),
        rf_double_gaussian fuel st mu sigma = some (v, st') →
        ∃ u s : ℚ, ¬(1 ≤ s ∨ s = 0) ∧ s = u * u ∧
          (∃ st0 : RFState, u = (rf_double_01 st0).1 * 2 - 1) ∧
          v = mu + sigma * ((u : ℝ) * Real.sqrt (-(1/2) * Real.log (s : ℝ) / (s : ℝ)))) :=
  ⟨fun fuel st mu sigma => gauss_go_spec random_float_01 mu sigma fuel st,
   fun fuel st mu sigma => gauss_go_spec random_double_01 mu sigma fuel st,
   fun fuel st mu sigma => gauss_go_spec rf_double_01 mu sigma fuel st⟩

/-- One accepted step of `random_double_gaussian` from state `(2^40,0,0,0)`:
the draw is `x = 1/2 + 2^-24`, so `u = 2^-23` and `s = 2^-46`, which is
accepted at once. -/
theorem rdg_eval (mu sigma : ℝ) :
    random_double_gaussian 1 ⟨2 ^ 40, 0, 0, 0⟩ mu sigma =
      some (mu + sigma * (((1/8388608 : ℚ) : ℝ) *
          Real.sqrt (-(1/2) * Real.log ((1/70368744177664 : ℚ) : ℝ) /
            ((1/70368744177664 : ℚ) : ℝ))),
        ⟨2 ^ 40, 2 ^ 40, 2 ^ 40, 0⟩) := by
  have hx : random_double_01 ⟨2 ^ 40, 0, 0, 0⟩ =
      (8388609 / 16777216, ⟨2 ^ 40, 2 ^ 40, 2 ^ 40, 0⟩) := by
    norm_num [random_double_01, random_u64, add64, shl64, random__rotl,
      Nat.shiftLeft_eq, Nat.shiftRight_eq_div_pow]
  rw [random_double_gaussian, show (1 : Nat) = 0 + 1 from rfl]
  simp only [gauss_go, hx]
  norm_num

/-- Claim C7, amended. Whenever the rejection loop terminates (it does not for
degenerate states such as the all-zero one, see the counterexample), the
gaussian samplers called with `sigma = 0` return exactly `mu`. -/
theorem c7_gaussian_sigma_zero :
    (∀ (fuel : Nat) (st : RandomState) (mu v : ℝ) (st' : RandomState),
        random_float_gaussian fuel st mu 0 = some (v, st') → v = mu) ∧
    (∀ (fuel : Nat) (st : RandomState) (mu v : ℝ) (st' : RandomState),
        random_double_gaussian fuel st mu 0 = some (v, st') → v = mu) :=
  ⟨fun fuel st mu v st' => gauss_go_sigma_zero random_float_01 mu fuel st v st',
   fun fuel st mu v st' => gauss_go_sigma_zero random_double_01 mu fuel st v st'⟩

/-- Witness for C7 (amended): one accepted step from `(2^40,0,0,0)` with
`mu = 3`, `sigma = 0` returns exactly 3. -/
theorem c7_gaussian_sigma_zero_witness :
    ∃ p : ℝ × RandomState,
      random_double_gaussian 1 ⟨2 ^ 40, 0, 0, 0⟩ 3 0 = some p ∧ p.1 = 3 :=
  ⟨_, rdg_eval 3 0,
    c7_gaussian_sigma_zero.2 1 ⟨2 ^ 40, 0, 0, 0⟩ 3 _ _ (rdg_eval 3 0)⟩

/-- From the all-zero state every draw is `x = 0`, hence `u = -1`, `s = 1`,
which the loop rejects forever. -/
theorem gauss_zero_state_none (fuel : Nat) :
    ∀ (mu sigma : ℝ), gauss_go random_double_01 mu sigma fuel ⟨0, 0, 0, 0⟩ = none := by
  have hzero : random_double_01 ⟨0, 0, 0, 0⟩ = (0, ⟨0, 0, 0, 0⟩) := by
    norm_num [random_double_01, random_u64, add64, shl64, random__rotl]
  induction fuel with
  | zero => intro mu sigma; rfl
  | succ n ih =>
    intro mu sigma
    simp only [gauss_go, hzero]
    rw [if_pos (by norm_num)]
    exact ih mu sigma

/-- Counterexample to C7 as stated: from the all-zero state (with `mu = 0`,
`sigma = 0`) the double gaussian sampler never returns at all — the claim's
unconditional "returns exactly mu" fails. -/
theorem c7_counterexample :
    ¬ ∃ (fuel : Nat) (p : ℝ × RandomState),
        random_double_gaussian fuel ⟨0, 0, 0, 0⟩ 0 0 = some p := by
  rintro ⟨fuel, p, h⟩
  rw [random_double_gaussian, gauss_zero_state_none fuel 0 0] at h
  exact Option.noConfusion h

/-- Witness for C5 (amended): the accepted step from `(2^40,0,0,0)` with
`mu = 0`, `sigma = 1` matches the characterisation. -/
theorem c5_gaussian_formula_witness :
    ∃ p : ℝ × RandomState,
      random_double_gaussian 1 ⟨2 ^ 40, 0, 0, 0⟩ 0 1 = some p ∧
      ∃ u s : ℚ, ¬(1 ≤ s ∨ s = 0) ∧ s = u * u ∧
        (∃ st0 : RandomState, u = (random_double_01 st0).1 * 2 - 1) ∧
        p.1 = 0 + 1 * ((u : ℝ) * Real.sqrt (-(1/2) * Real.log (s : ℝ) / (s : ℝ))) :=
  ⟨_, rdg_eval 0 1,
    c5_gaussian_formula.2.1 1 ⟨2 ^ 40, 0, 0, 0⟩ 0 1 _ _ (rdg_eval 0 1)⟩

/-- Counterexample to C5 as stated: at the accepted draw from `(2^40,0,0,0)`
(`mu = 0`, `sigma = 1`, `u = 2^-23`, `s = 2^-46`) the value actually returned
differs from the claimed `mu + sigma * u * sqrt(-2 * ln(s) / s)` — the code
computes `-0.5` inside the square root, so the claimed value is twice the
actual one. -/
theorem c5_counterexample :
    ∃ p : ℝ × RandomState,
      random_double_gaussian 1 ⟨2 ^ 40, 0, 0, 0⟩ 0 1 = some p ∧
      p.1 ≠ 0 + 1 * (((1/8388608 : ℚ) : ℝ) *
        Real.sqrt (-2 * Real.log ((1/70368744177664 : ℚ) : ℝ) /
          ((1/70368744177664 : ℚ) : ℝ))) := by
  refine ⟨_, rdg_eval 0 1, ?_⟩
  push_cast
  simp only [zero_add, one_mul]
  have hL : Real.log ((1 : ℝ) / 70368744177664) < 0 :=
    Real.log_neg (by norm_num) (by norm_num)
  set L := Real.log ((1 : ℝ) / 70368744177664) with hLdef
  have hA : (0 : ℝ) < -(1/2) * L / (1 / 70368744177664) :=
    div_pos (by nlinarith) (by norm_num)
  have hB : (-2 : ℝ) * L / (1 / 70368744177664) =
      4 * (-(1/2) * L / (1 / 70368744177664)) := by ring
  intro heq
  have h4 : Real.sqrt ((-2 : ℝ) * L / (1 / 70368744177664)) =
      2 * Real.sqrt (-(1/2) * L / (1 / 70368744177664)) := by
    rw [hB, show (4 : ℝ) * (-(1/2) * L / (1 / 70368744177664)) =
        2 ^ 2 * (-(1/2) * L / (1 / 70368744177664)) by norm_num,
      Real.sqrt_mul (by norm_num : (0:ℝ) ≤ 2 ^ 2),
      Real.sqrt_sq (by norm_num : (0:ℝ) ≤ 2)]
  rw [h4] at heq
  have hpos : 0 < Real.sqrt (-(1/2) * L / (1 / 70368744177664)) :=
    Real.sqrt_pos.mpr hA
  have h8 : ((1 : ℝ) / 8388608) ≠ 0 := by norm_num
  have hcancel := mul_left_cancel₀ h8 heq
  linarith

end RandomH
